import Mathlib

/-!
Verification development for the parentality preview engine
(`scripts/parentality_engine.py`).

The engine is a flat script of pure functions over small JSON documents:
score clamping, banded threshold classification, event emission and
sorting, plan building from static action tables, and a before/after
delta comparison.  We embed each function shallowly: Python dicts become
association lists (`List (String × α)`, iteration order preserved, keys
unique in any dict the interpreter can produce), Python ints become
`Int`, optional / absent JSON keys become `Option`, and the imperative
append loops become left folds over the iterated list.
-/

namespace Parentality

/-- A score map: Python dict from metric name to integer score,
embedded as an association list preserving insertion order. -/
abbrev ScoreMap := List (String × Int)

/-- `ThresholdBand` dataclass: a named inclusive score range. -/
structure ThresholdBand where
  name : String
  min : Int
  max : Int
deriving DecidableEq

/-- The `BANDS` table. -/
def BANDS : List ThresholdBand :=
  [⟨"monitor", 0, 39⟩, ⟨"soft", 40, 69⟩, ⟨"active", 70, 84⟩, ⟨"urgent", 85, 100⟩]

/-- `PARENT_ACTIONS["parentA"]`: parentA's metric → action table. -/
def parentA_actions : List (String × String) :=
  [("fear", "Talk calmly, validate emotion, guide one grounding breath cycle."),
   ("anger", "De-escalate tone, acknowledge frustration, suggest a pause."),
   ("bonding", "Initiate warm check-in and reaffirm relationship safety."),
   ("protection", "Provide emotional safety and reassure child it is not alone.")]

/-- `PARENT_ACTIONS["parentB"]`: parentB's metric → action table. -/
def parentB_actions : List (String × String) :=
  [("learning", "Break problem into 1 small lesson + 1 practice step."),
   ("hunger", "Give one concrete task with clear reward and completion signal."),
   ("protection", "Apply practical safeguards, boundaries, and contingency plan.")]

/-- Python `d.get(k)`: first value stored under key `k`, if any. -/
def getOpt {α : Type} (m : List (String × α)) (k : String) : Option α :=
  match m with
  | [] => none
  | (k', v) :: rest => if k' = k then some v else getOpt rest k

/-- Python `d.get(k, default)`. -/
def getD (m : ScoreMap) (k : String) (default : Int) : Int :=
  (getOpt m k).getD default

/-- `clamp_score(v) = max(0, min(100, int(v)))`. -/
def clamp_score (v : Int) : Int :=
  max 0 (min 100 v)

/-- The loop of `band_for_score`: return the name of the first band
containing the score, else fall through. -/
def bandLookup : List ThresholdBand → Int → String
  | [], _ => "monitor"
  | b :: rest, s => if b.min ≤ s ∧ s ≤ b.max then b.name else bandLookup rest s

/-- `band_for_score(score)`: first band of `BANDS` whose inclusive range
contains the score, with fallback `"monitor"`. -/
def band_for_score (score : Int) : String :=
  bandLookup BANDS score

/-- The `"child"` sub-document of a state JSON file. -/
structure Child where
  id : Option String
  stage : Option String
  scores : Option ScoreMap
deriving DecidableEq

/-- A state document.  `child = none` covers both an absent `"child"`
key and a falsy (`null` / empty) value, the two cases Python's
`if not child:` merges. -/
structure State where
  child : Option Child
deriving DecidableEq

/-- An emitted event `{metric, score, level}`. -/
structure Event where
  metric : String
  score : Int
  level : String
deriving DecidableEq

/-- The result dict of `evaluate_child`.  An outer `none` in `message`,
`childId`, `stage` or `scores` means the key is absent from the dict;
`childId = some none` means the key is present with value `null`. -/
structure Evaluation where
  hasChild : Bool
  status : String
  message : Option String
  childId : Option (Option String)
  stage : Option (Option String)
  scores : Option ScoreMap
  events : List Event
deriving DecidableEq

/-- Descending-score order on events: the relation `sorted(...,
key=score, reverse=True)` establishes. -/
def scoreGE (a b : Event) : Prop := b.score ≤ a.score

instance : DecidableRel scoreGE := fun a b =>
  inferInstanceAs (Decidable (b.score ≤ a.score))

instance : IsTotal Event scoreGE := ⟨fun a b => le_total b.score a.score⟩

instance : IsTrans Event scoreGE := ⟨fun _ _ _ h h' => le_trans h' h⟩

/-- Body of the event loop of `evaluate_child`: append an event unless
the band is `"monitor"`. -/
def eventStep (acc : List Event) (p : String × Int) : List Event :=
  let level := band_for_score p.2
  if level = "monitor" then acc else acc ++ [⟨p.1, p.2, level⟩]

/-- `evaluate_child(state)`. -/
def evaluate_child (state : State) : Evaluation :=
  match state.child with
  | none =>
      { hasChild := false
        status := "no-child"
        message := some "No child generated yet. Parenting instincts stay inactive."
        childId := none
        stage := none
        scores := none
        events := [] }
  | some child =>
      let scores : ScoreMap :=
        (child.scores.getD []).map (fun p => (p.1, clamp_score p.2))
      let events := scores.foldl eventStep []
      { hasChild := true
        status := "ok"
        message := none
        childId := some child.id
        stage := some child.stage
        scores := some scores
        events := List.insertionSort scoreGE events }

/-- A cron descriptor.  `none` in `enabledWhen` / `startedAt` means the
key is absent from the dict. -/
structure Cron where
  name : String
  kind : String
  everyMinutes : Int
  purpose : String
  enabledWhen : Option String
  startedAt : Option String
deriving DecidableEq

/-- A suggestion record `{parent, metric, level, action}`. -/
structure Suggestion where
  parent : String
  metric : String
  level : String
  action : String
deriving DecidableEq

/-- The plan dict of `build_instinct_plan`. -/
structure Plan where
  enabled : Bool
  reason : String
  crons : List Cron
  suggestions : List Suggestion
deriving DecidableEq

/-- Body of the suggestion loop of `build_instinct_plan`: for one event,
append a parentA suggestion if parentA's table has the metric, then a
parentB suggestion if parentB's table has it. -/
def suggestionStep (acc : List Suggestion) (ev : Event) : List Suggestion :=
  let acc1 :=
    match getOpt parentA_actions ev.metric with
    | some action => acc ++ [⟨"parentA", ev.metric, ev.level, action⟩]
    | none => acc
  match getOpt parentB_actions ev.metric with
  | some action => acc1 ++ [⟨"parentB", ev.metric, ev.level, action⟩]
  | none => acc1

/-- The fixed three-entry cron list built when a threshold is crossed;
`now` is the captured current timestamp. -/
def thresholdCrons (now : String) : List Cron :=
  [{ name := "parentality-keepalive-check"
     kind := "every"
     everyMinutes := 20
     purpose := "Recompute child scores and detect threshold crossings."
     enabledWhen := none
     startedAt := none },
   { name := "parentality-instinct-intervention"
     kind := "event-or-poll"
     everyMinutes := 10
     purpose := "Trigger parent-specific complementary intervention suggestions."
     enabledWhen := some "child exists AND any score >= soft threshold"
     startedAt := none },
   { name := "parentality-recovery-check"
     kind := "every"
     everyMinutes := 20
     purpose := "Compare post-action score against previous and close instinct context when improved."
     enabledWhen := none
     startedAt := some now }]

/-- `build_instinct_plan(eval_result)`.  The Python function reads the
wall clock for the `startedAt` timestamp; we pass that timestamp in as
`now`. -/
def build_instinct_plan (now : String) (eval_result : Evaluation) : Plan :=
  if eval_result.hasChild = false then
    { enabled := false, reason := "no-child", crons := [], suggestions := [] }
  else if eval_result.events = [] then
    { enabled := true, reason := "stable", crons := [], suggestions := [] }
  else
    { enabled := true
      reason := "threshold-crossed"
      crons := thresholdCrons now
      suggestions := eval_result.events.foldl suggestionStep [] }

/-- The result dict of `close_context_if_improved`. -/
structure RecoveryResult where
  improvements : List (String × Int)
  resolved : Bool
  unresolved : List String
  nextAction : String
deriving DecidableEq

/-- Body of the comparison loop of `close_context_if_improved`: record
the delta for the metric, and append the metric to the unresolved list
when all three conditions hold. -/
def recoveryStep (cur_scores : ScoreMap) (min_improvement : Int)
    (acc : List (String × Int) × List String) (p : String × Int) :
    List (String × Int) × List String :=
  let cur := getD cur_scores p.1 p.2
  let delta := p.2 - cur
  let improvements := acc.1 ++ [(p.1, delta)]
  let unresolved :=
    if band_for_score p.2 ≠ "monitor" ∧ delta < min_improvement ∧
        band_for_score cur ≠ "monitor" then
      acc.2 ++ [p.1]
    else acc.2
  (improvements, unresolved)

/-- `close_context_if_improved(previous, current, min_improvement)`; the
Python default for `min_improvement` is 8. -/
def close_context_if_improved (previous current : Evaluation)
    (min_improvement : Int) : RecoveryResult :=
  let prev_scores : ScoreMap := previous.scores.getD []
  let cur_scores : ScoreMap := current.scores.getD []
  let res := prev_scores.foldl (recoveryStep cur_scores min_improvement) ([], [])
  { improvements := res.1
    resolved := res.2.length = 0
    unresolved := res.2
    nextAction :=
      if res.2.length = 0 then "exit-instinct-context" else "continue-or-escalate" }

/-! ### Specification-side definitions and helper lemmas -/

/-- The event the loop body of `evaluate_child` emits for one score map
entry, if any: none when the band is `"monitor"`. -/
def mkEvent (p : String × Int) : Option Event :=
  let level := band_for_score p.2
  if level = "monitor" then none else some ⟨p.1, p.2, level⟩

/-- The suggestions one event contributes: the parentA record (if
parentA's table has the metric) followed by the parentB record (if
parentB's table has it). -/
def perEventSuggestions (ev : Event) : List Suggestion :=
  (match getOpt parentA_actions ev.metric with
   | some action => [⟨"parentA", ev.metric, ev.level, action⟩]
   | none => []) ++
  (match getOpt parentB_actions ev.metric with
   | some action => [⟨"parentB", ev.metric, ev.level, action⟩]
   | none => [])

/-- The unresolved-metric test of `close_context_if_improved` for one
previous-score entry. -/
def unresolvedCond (cur_scores : ScoreMap) (min_improvement : Int)
    (p : String × Int) : Prop :=
  band_for_score p.2 ≠ "monitor" ∧
    p.2 - getD cur_scores p.1 p.2 < min_improvement ∧
    band_for_score (getD cur_scores p.1 p.2) ≠ "monitor"

instance (cur_scores : ScoreMap) (min_improvement : Int) (p : String × Int) :
    Decidable (unresolvedCond cur_scores min_improvement p) :=
  inferInstanceAs (Decidable (_ ∧ _ ∧ _))

theorem band_for_score_eq (v : Int) :
    band_for_score v =
      if v < 0 then "monitor"
      else if v ≤ 39 then "monitor"
      else if v ≤ 69 then "soft"
      else if v ≤ 84 then "active"
      else if v ≤ 100 then "urgent"
      else "monitor" := by
  simp only [band_for_score, BANDS, bandLookup]
  split_ifs <;> first | rfl | omega

theorem band_monitor_iff (v : Int) :
    band_for_score v = "monitor" ↔ v ≤ 39 ∨ 100 < v := by
  rw [band_for_score_eq]
  split_ifs <;> simp_all <;> omega

theorem clamp_score_nonneg (v : Int) : 0 ≤ clamp_score v := by
  simp only [clamp_score, max_def, min_def]
  split_ifs <;> omega

theorem clamp_score_le (v : Int) : clamp_score v ≤ 100 := by
  simp only [clamp_score, max_def, min_def]
  split_ifs <;> omega

theorem clamp_score_of_mem (v : Int) (h0 : 0 ≤ v) (h1 : v ≤ 100) :
    clamp_score v = v := by
  simp only [clamp_score, max_def, min_def]
  split_ifs <;> omega

theorem eventStep_fold (l : List (String × Int)) (acc : List Event) :
    l.foldl eventStep acc = acc ++ l.filterMap mkEvent := by
  induction l generalizing acc with
  | nil => simp
  | cons p rest ih =>
      simp only [List.foldl_cons, List.filterMap_cons, eventStep, mkEvent]
      split_ifs with h
      · simp [ih]
      · simp [ih]

theorem suggestionStep_fold (l : List Event) (acc : List Suggestion) :
    l.foldl suggestionStep acc = acc ++ l.flatMap perEventSuggestions := by
  induction l generalizing acc with
  | nil => simp
  | cons ev rest ih =>
      simp only [List.foldl_cons, List.flatMap_cons, suggestionStep,
        perEventSuggestions]
      cases getOpt parentA_actions ev.metric <;>
        cases getOpt parentB_actions ev.metric <;>
          simp [ih]

theorem recoveryStep_fold (cur_scores : ScoreMap) (mi : Int)
    (l : ScoreMap) (acc : List (String × Int) × List String) :
    l.foldl (recoveryStep cur_scores mi) acc =
      (acc.1 ++ l.map (fun p => (p.1, p.2 - getD cur_scores p.1 p.2)),
       acc.2 ++ (l.filter (fun p =>
         decide (unresolvedCond cur_scores mi p))).map Prod.fst) := by
  induction l generalizing acc with
  | nil => simp
  | cons p rest ih =>
      have hstep : recoveryStep cur_scores mi acc p =
          (acc.1 ++ [(p.1, p.2 - getD cur_scores p.1 p.2)],
           if unresolvedCond cur_scores mi p then acc.2 ++ [p.1] else acc.2) :=
        rfl
      by_cases h : unresolvedCond cur_scores mi p
      · rw [List.foldl_cons, hstep, if_pos h, ih]
        simp [List.filter_cons, h]
      · rw [List.foldl_cons, hstep, if_neg h, ih]
        simp [List.filter_cons, h]

theorem getOpt_eq_some_of_mem {α : Type} {l : List (String × α)} {m : String}
    {v : α} (hnd : (l.map Prod.fst).Nodup) (hmem : (m, v) ∈ l) :
    getOpt l m = some v := by
  induction l with
  | nil => cases hmem
  | cons p rest ih =>
      simp only [List.map_cons, List.nodup_cons] at hnd
      rcases List.mem_cons.mp hmem with h | h
      · subst h
        simp [getOpt]
      · have hne : p.1 ≠ m := by
          intro he
          exact hnd.1 (he ▸ List.mem_map_of_mem Prod.fst h)
        simp [getOpt, hne, ih hnd.2 h]

theorem getOpt_eq_none_iff {α : Type} (l : List (String × α)) (m : String) :
    getOpt l m = none ↔ m ∉ l.map Prod.fst := by
  induction l with
  | nil => simp [getOpt]
  | cons p rest ih =>
      by_cases h : p.1 = m
      · simp [getOpt, h]
      · simp [getOpt, h, ih, Ne.symm h]

theorem countP_key_eq_one {α : Type} {l : List (String × α)} {m : String}
    {v : α} (hnd : (l.map Prod.fst).Nodup) (hmem : (m, v) ∈ l) :
    l.countP (fun p => p.1 == m) = 1 := by
  induction l with
  | nil => cases hmem
  | cons p rest ih =>
      simp only [List.map_cons, List.nodup_cons] at hnd
      rcases List.mem_cons.mp hmem with h | h
      · subst h
        have hz : rest.countP (fun p => p.1 == m) = 0 := by
          rw [List.countP_eq_zero]
          intro q hq hb
          have hq1 : q.1 ∈ rest.map Prod.fst := List.mem_map_of_mem Prod.fst hq
          rw [beq_iff_eq.mp hb] at hq1
          exact hnd.1 hq1
        simp [List.countP_cons, hz]
      · have hne : p.1 ≠ m := by
          intro he
          exact hnd.1 (he ▸ List.mem_map_of_mem Prod.fst h)
        simp [List.countP_cons, hne, ih hnd.2 h]

theorem countP_key_eq_zero {α : Type} {l : List (String × α)} {m : String}
    (hnot : m ∉ l.map Prod.fst) :
    l.countP (fun p => p.1 == m) = 0 := by
  rw [List.countP_eq_zero]
  intro q hq hb
  have hq1 : q.1 ∈ l.map Prod.fst := List.mem_map_of_mem Prod.fst hq
  rw [beq_iff_eq.mp hb] at hq1
  exact hnot hq1

theorem nodup_keys_val_eq {α : Type} {l : List (String × α)} {m : String}
    {a b : α} (hnd : (l.map Prod.fst).Nodup) (ha : (m, a) ∈ l)
    (hb : (m, b) ∈ l) : a = b := by
  have h1 := getOpt_eq_some_of_mem hnd ha
  have h2 := getOpt_eq_some_of_mem hnd hb
  rw [h1] at h2
  exact Option.some.inj h2

theorem evaluate_child_scores_eq (st : State) (c : Child)
    (h : st.child = some c) :
    (evaluate_child st).scores =
      some ((c.scores.getD []).map (fun p => (p.1, clamp_score p.2))) := by
  simp [evaluate_child, h]

theorem evaluate_child_events_eq (st : State) (c : Child)
    (h : st.child = some c) :
    (evaluate_child st).events =
      List.insertionSort scoreGE
        (((c.scores.getD []).map (fun p => (p.1, clamp_score p.2))).filterMap
          mkEvent) := by
  simp [evaluate_child, h, eventStep_fold]

theorem mkEvent_clamp (m : String) (v : Int) :
    mkEvent (m, clamp_score v) =
      if 40 ≤ clamp_score v then
        some ⟨m, clamp_score v, band_for_score (clamp_score v)⟩
      else none := by
  have h1 := clamp_score_nonneg v
  have h2 := clamp_score_le v
  by_cases h : 40 ≤ clamp_score v
  · have hb : ¬ band_for_score (clamp_score v) = "monitor" := by
      rw [band_monitor_iff]
      omega
    simp [mkEvent, hb, h]
  · have hb : band_for_score (clamp_score v) = "monitor" := by
      rw [band_monitor_iff]
      omega
    simp [mkEvent, hb, h]

/-! ### Claim theorems -/

/-- C2: on `[0,100]`, `band_for_score` realises the inclusive partition
0–39 → monitor, 40–69 → soft, 70–84 → active, 85–100 → urgent, and
exactly one entry of `BANDS` matches each such score (the four bands are
contiguous, exhaustive and non-overlapping over `[0,100]`). -/
theorem band_for_score_partition (v : Int) (h0 : 0 ≤ v) (h1 : v ≤ 100) :
    (band_for_score v = "monitor" ↔ v ≤ 39) ∧
    (band_for_score v = "soft" ↔ 40 ≤ v ∧ v ≤ 69) ∧
    (band_for_score v = "active" ↔ 70 ≤ v ∧ v ≤ 84) ∧
    (band_for_score v = "urgent" ↔ 85 ≤ v) ∧
    BANDS.countP (fun b => decide (b.min ≤ v ∧ v ≤ b.max)) = 1 := by
  refine ⟨?_, ?_, ?_, ?_, ?_⟩
  · rw [band_monitor_iff]
    omega
  · rw [band_for_score_eq]
    split_ifs <;> simp_all <;> omega
  · rw [band_for_score_eq]
    split_ifs <;> simp_all <;> omega
  · rw [band_for_score_eq]
    split_ifs <;> simp_all <;> omega
  · simp only [BANDS, List.countP_cons, List.countP_nil, decide_eq_true_eq]
    split_ifs <;> omega

/-- C2 witness: the partition theorem applied at the boundary score 84. -/
theorem band_for_score_partition_witness :
    (band_for_score 84 = "monitor" ↔ (84 : Int) ≤ 39) ∧
    (band_for_score 84 = "soft" ↔ (40 : Int) ≤ 84 ∧ (84 : Int) ≤ 69) ∧
    (band_for_score 84 = "active" ↔ (70 : Int) ≤ 84 ∧ (84 : Int) ≤ 84) ∧
    (band_for_score 84 = "urgent" ↔ (85 : Int) ≤ 84) ∧
    BANDS.countP (fun b => decide (b.min ≤ (84 : Int) ∧ (84 : Int) ≤ b.max)) = 1 :=
  band_for_score_partition 84 (by decide) (by decide)

/-- C9: on a state whose child field is absent or falsy, `evaluate_child`
returns exactly the no-child result: `hasChild = false`,
`status = "no-child"`, the fixed message, an empty event list, and no
`childId`, `stage` or `scores` keys. -/
theorem evaluate_child_no_child (st : State) (h : st.child = none) :
    evaluate_child st =
      { hasChild := false
        status := "no-child"
        message := some "No child generated yet. Parenting instincts stay inactive."
        childId := none
        stage := none
        scores := none
        events := [] } := by
  simp [evaluate_child, h]

/-- C9 witness: the no-child theorem applied to the empty state. -/
theorem evaluate_child_no_child_witness :
    evaluate_child ⟨none⟩ =
      { hasChild := false
        status := "no-child"
        message := some "No child generated yet. Parenting instincts stay inactive."
        childId := none
        stage := none
        scores := none
        events := [] } :=
  evaluate_child_no_child ⟨none⟩ rfl

/-- C8: `clamp_score` maps every integer into `[0,100]` and is the
identity there; consequently every score in the scores map of an
evaluation produced by `evaluate_child`, and every event score, lies in
`[0,100]`. -/
theorem clamp_score_range_invariant :
    (∀ v : Int, 0 ≤ clamp_score v ∧ clamp_score v ≤ 100) ∧
    (∀ v : Int, 0 ≤ v → v ≤ 100 → clamp_score v = v) ∧
    (∀ (st : State) (sm : ScoreMap) (m : String) (v : Int),
      (evaluate_child st).scores = some sm → (m, v) ∈ sm →
        0 ≤ v ∧ v ≤ 100) ∧
    (∀ (st : State) (e : Event), e ∈ (evaluate_child st).events →
        0 ≤ e.score ∧ e.score ≤ 100) := by
  refine ⟨fun v => ⟨clamp_score_nonneg v, clamp_score_le v⟩,
    fun v h0 h1 => clamp_score_of_mem v h0 h1, ?_, ?_⟩
  · intro st sm m v hsc hmem
    cases hch : st.child with
    | none =>
        rw [evaluate_child_no_child st hch] at hsc
        cases hsc
    | some c =>
        rw [evaluate_child_scores_eq st c hch] at hsc
        obtain rfl := Option.some.inj hsc
        obtain ⟨p, hpl, hp⟩ := List.mem_map.mp hmem
        have h2 : clamp_score p.2 = v := congrArg Prod.snd hp
        rw [← h2]
        exact ⟨clamp_score_nonneg p.2, clamp_score_le p.2⟩
  · intro st e he
    cases hch : st.child with
    | none =>
        rw [evaluate_child_no_child st hch] at he
        cases he
    | some c =>
        rw [evaluate_child_events_eq st c hch, List.mem_insertionSort] at he
        obtain ⟨q, hql, hq⟩ := List.mem_filterMap.mp he
        obtain ⟨p, hpl, rfl⟩ := List.mem_map.mp hql
        rw [mkEvent_clamp p.1 p.2] at hq
        by_cases h40 : 40 ≤ clamp_score p.2
        · rw [if_pos h40] at hq
          obtain rfl := Option.some.inj hq
          exact ⟨clamp_score_nonneg p.2, clamp_score_le p.2⟩
        · rw [if_neg h40] at hq
          cases hq

/-- C8 witness: the range invariant applied at a concrete clamp input
and a concrete in-range input. -/
theorem clamp_score_range_invariant_witness :
    (0 ≤ clamp_score 150 ∧ clamp_score 150 ≤ 100) ∧ clamp_score 7 = 7 :=
  ⟨clamp_score_range_invariant.1 150,
   clamp_score_range_invariant.2.1 7 (by decide) (by decide)⟩

/-- C5: `build_instinct_plan` case analysis — no child gives the
disabled no-child plan; a child with no events gives the enabled stable
plan; a child with at least one event gives an enabled plan with reason
`"threshold-crossed"`. -/
theorem build_instinct_plan_cases (now : String) (e : Evaluation) :
    (e.hasChild = false →
      build_instinct_plan now e =
        { enabled := false, reason := "no-child", crons := [], suggestions := [] }) ∧
    (e.hasChild = true → e.events = [] →
      build_instinct_plan now e =
        { enabled := true, reason := "stable", crons := [], suggestions := [] }) ∧
    (e.hasChild = true → e.events ≠ [] →
      (build_instinct_plan now e).enabled = true ∧
      (build_instinct_plan now e).reason = "threshold-crossed") := by
  refine ⟨fun h => ?_, fun h he => ?_, fun h he => ?_⟩
  · simp [build_instinct_plan, h]
  · simp [build_instinct_plan, h, he]
  · simp [build_instinct_plan, h, he]

/-- C5 witness: the case analysis applied to three concrete
evaluations, one per case. -/
theorem build_instinct_plan_cases_witness :
    build_instinct_plan "t" ⟨false, "no-child", none, none, none, none, []⟩ =
      { enabled := false, reason := "no-child", crons := [], suggestions := [] } ∧
    build_instinct_plan "t" ⟨true, "ok", none, some none, some none, some [], []⟩ =
      { enabled := true, reason := "stable", crons := [], suggestions := [] } ∧
    (build_instinct_plan "t"
        ⟨true, "ok", none, some none, some none, some [("fear", 90)],
          [⟨"fear", 90, "urgent"⟩]⟩).reason = "threshold-crossed" :=
  ⟨(build_instinct_plan_cases "t" _).1 rfl,
   (build_instinct_plan_cases "t" _).2.1 rfl rfl,
   ((build_instinct_plan_cases "t" _).2.2 rfl (List.cons_ne_nil _ _)).2⟩

/-- C7: whenever at least one event exists, the crons list has exactly
three entries with the fixed literal names, independent of which metrics
fired, and only the recovery-check entry carries a `startedAt`
timestamp. -/
theorem build_instinct_plan_crons (now : String) (e : Evaluation)
    (hch : e.hasChild = true) (hne : e.events ≠ []) :
    (build_instinct_plan now e).crons.length = 3 ∧
    (build_instinct_plan now e).crons.map Cron.name =
      ["parentality-keepalive-check", "parentality-instinct-intervention",
       "parentality-recovery-check"] ∧
    (build_instinct_plan now e).crons.map Cron.startedAt =
      [none, none, some now] := by
  refine ⟨?_, ?_, ?_⟩ <;> simp [build_instinct_plan, hch, hne, thresholdCrons]

/-- C7 witness: the cron theorem applied to a concrete single-event
evaluation. -/
theorem build_instinct_plan_crons_witness :
    (build_instinct_plan "t"
        ⟨true, "ok", none, some none, some none, some [("fear", 90)],
          [⟨"fear", 90, "urgent"⟩]⟩).crons.length = 3 ∧
    (build_instinct_plan "t"
        ⟨true, "ok", none, some none, some none, some [("fear", 90)],
          [⟨"fear", 90, "urgent"⟩]⟩).crons.map Cron.name =
      ["parentality-keepalive-check", "parentality-instinct-intervention",
       "parentality-recovery-check"] ∧
    (build_instinct_plan "t"
        ⟨true, "ok", none, some none, some none, some [("fear", 90)],
          [⟨"fear", 90, "urgent"⟩]⟩).crons.map Cron.startedAt =
      [none, none, some "t"] :=
  build_instinct_plan_crons "t" _ rfl (List.cons_ne_nil _ _)

theorem close_context_unresolved_eq (previous current : Evaluation) (mi : Int) :
    (close_context_if_improved previous current mi).unresolved =
      ((previous.scores.getD []).filter (fun p =>
        decide (unresolvedCond (current.scores.getD []) mi p))).map Prod.fst := by
  simp [close_context_if_improved, recoveryStep_fold]

theorem close_context_improvements_eq (previous current : Evaluation) (mi : Int) :
    (close_context_if_improved previous current mi).improvements =
      (previous.scores.getD []).map
        (fun p => (p.1, p.2 - getD (current.scores.getD []) p.1 p.2)) := by
  simp [close_context_if_improved, recoveryStep_fold]

theorem close_context_resolved_iff (previous current : Evaluation) (mi : Int) :
    (close_context_if_improved previous current mi).resolved = true ↔
      (close_context_if_improved previous current mi).unresolved = [] := by
  simp [close_context_if_improved, recoveryStep_fold, List.length_eq_zero]

theorem close_context_nextAction_eq (previous current : Evaluation) (mi : Int) :
    (close_context_if_improved previous current mi).nextAction =
      if (close_context_if_improved previous current mi).unresolved = []
      then "exit-instinct-context" else "continue-or-escalate" := by
  simp only [close_context_if_improved, recoveryStep_fold]
  by_cases h :
      (((previous.scores.getD [] : ScoreMap)).filter (fun p =>
        decide (unresolvedCond (current.scores.getD []) mi p))).map Prod.fst = []
  · rw [if_pos (by simpa using congrArg List.length h), if_pos (by simpa using h)]
  · rw [if_neg (by simpa [List.length_eq_zero] using h),
      if_neg (by simpa using h)]

/-- C1: in `close_context_if_improved`, a metric of the previous score
map is unresolved iff its previous band is not `"monitor"`, its delta
(previous minus current, current defaulting to previous when absent) is
strictly below `min_improvement` (8 by default in the source), and its
current band is not `"monitor"`; `resolved` holds exactly when the
unresolved list is empty, and `nextAction` is
`"exit-instinct-context"` when resolved and `"continue-or-escalate"`
otherwise. -/
theorem close_context_spec (previous current : Evaluation) (mi : Int)
    (hnd : (((previous.scores.getD [] : ScoreMap)).map Prod.fst).Nodup) :
    (∀ m p, (m, p) ∈ (previous.scores.getD [] : ScoreMap) →
      (m ∈ (close_context_if_improved previous current mi).unresolved ↔
        (band_for_score p ≠ "monitor" ∧
         p - getD (current.scores.getD []) m p < mi ∧
         band_for_score (getD (current.scores.getD []) m p) ≠ "monitor"))) ∧
    ((close_context_if_improved previous current mi).resolved = true ↔
      (close_context_if_improved previous current mi).unresolved = []) ∧
    ((close_context_if_improved previous current mi).nextAction =
      if (close_context_if_improved previous current mi).unresolved = []
      then "exit-instinct-context" else "continue-or-escalate") := by
  refine ⟨?_, close_context_resolved_iff previous current mi,
    close_context_nextAction_eq previous current mi⟩
  intro m p hmem
  rw [close_context_unresolved_eq]
  constructor
  · intro hm
    obtain ⟨q, hq, hq1⟩ := List.mem_map.mp hm
    obtain ⟨q1, q2⟩ := q
    obtain rfl : q1 = m := hq1
    obtain ⟨hql, hqc⟩ := List.mem_filter.mp hq
    rw [decide_eq_true_eq] at hqc
    obtain rfl : q2 = p := nodup_keys_val_eq hnd hql hmem
    exact hqc
  · intro hcond
    exact List.mem_map.mpr ⟨(m, p),
      List.mem_filter.mpr ⟨hmem, decide_eq_true hcond⟩, rfl⟩

/-- C1 witness: the comparator specification applied to concrete
previous/current evaluations with a 3-point delta on an urgent-band
metric, which stays unresolved. -/
theorem close_context_spec_witness :
    "fear" ∈ (close_context_if_improved
      ⟨true, "ok", none, some none, some none, some [("fear", 90)], []⟩
      ⟨true, "ok", none, some none, some none, some [("fear", 87)], []⟩
      8).unresolved :=
  ((close_context_spec _ _ 8 (by decide)).1 "fear" 90
      (by decide)).mpr ⟨by decide, by decide, by decide⟩

/-- C4: the improvements map has exactly one entry per metric of the
previous score map, whose value is the previous score minus the current
score (defaulting to the previous score when the metric is absent from
the current map), recorded regardless of band; metrics absent from the
previous map get no entry. -/
theorem close_context_improvements_spec (previous current : Evaluation)
    (mi : Int)
    (hnd : (((previous.scores.getD [] : ScoreMap)).map Prod.fst).Nodup) :
    (∀ m p, (m, p) ∈ (previous.scores.getD [] : ScoreMap) →
      (m, p - getD (current.scores.getD []) m p) ∈
          (close_context_if_improved previous current mi).improvements ∧
      (close_context_if_improved previous current mi).improvements.countP
          (fun q => q.1 == m) = 1) ∧
    (∀ m, m ∉ ((previous.scores.getD [] : ScoreMap)).map Prod.fst →
      (close_context_if_improved previous current mi).improvements.countP
        (fun q => q.1 == m) = 0) ∧
    (close_context_if_improved previous current mi).improvements.length =
      (previous.scores.getD [] : ScoreMap).length := by
  refine ⟨?_, ?_, ?_⟩
  · intro m p hmem
    constructor
    · rw [close_context_improvements_eq]
      exact List.mem_map.mpr ⟨(m, p), hmem, rfl⟩
    · rw [close_context_improvements_eq, List.countP_map]
      exact countP_key_eq_one hnd hmem
  · intro m hm
    rw [close_context_improvements_eq, List.countP_map]
    exact countP_key_eq_zero hm
  · rw [close_context_improvements_eq, List.length_map]

/-- C4 witness: the improvements specification applied to a previous
map with one metric absent from the current map (delta 0, not a drop to
zero) and a metric only in the current map (no entry). -/
theorem close_context_improvements_spec_witness :
    ("fear", (90 : Int) - getD [("bonding", 10)] "fear" 90) ∈
      (close_context_if_improved
        ⟨true, "ok", none, some none, some none, some [("fear", 90)], []⟩
        ⟨true, "ok", none, some none, some none, some [("bonding", 10)], []⟩
        8).improvements ∧
    (close_context_if_improved
        ⟨true, "ok", none, some none, some none, some [("fear", 90)], []⟩
        ⟨true, "ok", none, some none, some none, some [("bonding", 10)], []⟩
        8).improvements.countP (fun q => q.1 == "bonding") = 0 :=
  ⟨((close_context_improvements_spec _ _ 8 (by decide)).1 "fear" 90
      (by decide)).1,
   (close_context_improvements_spec _ _ 8 (by decide)).2.1 "bonding"
      (by decide)⟩

/-- C10: `close_context_if_improved` does not clamp the scores it
reads; a previous score outside `[0,100]` hits `band_for_score`'s
fallback and is classified `"monitor"`, so its metric is never listed
as unresolved, whatever the current score and threshold are. -/
theorem close_context_out_of_range (previous current : Evaluation)
    (mi : Int) (m : String) (p : Int)
    (hnd : (((previous.scores.getD [] : ScoreMap)).map Prod.fst).Nodup)
    (hmem : (m, p) ∈ (previous.scores.getD [] : ScoreMap))
    (hout : p < 0 ∨ 100 < p) :
    band_for_score p = "monitor" ∧
    m ∉ (close_context_if_improved previous current mi).unresolved := by
  have hb : band_for_score p = "monitor" := by
    rw [band_monitor_iff]
    omega
  refine ⟨hb, ?_⟩
  rw [close_context_unresolved_eq]
  intro hm
  obtain ⟨q, hq, hq1⟩ := List.mem_map.mp hm
  obtain ⟨q1, q2⟩ := q
  obtain rfl : q1 = m := hq1
  obtain ⟨hql, hqc⟩ := List.mem_filter.mp hq
  rw [decide_eq_true_eq] at hqc
  obtain rfl : q2 = p := nodup_keys_val_eq hnd hql hmem
  exact hqc.1 hb

/-- C10 witness: the fallback theorem applied to a previous score of
150, which a small improvement would otherwise leave unresolved. -/
theorem close_context_out_of_range_witness :
    band_for_score 150 = "monitor" ∧
    "fear" ∉ (close_context_if_improved
      ⟨true, "ok", none, some none, some none, some [("fear", 150)], []⟩
      ⟨true, "ok", none, some none, some none, some [("fear", 149)], []⟩
      8).unresolved :=
  close_context_out_of_range _ _ 8 "fear" 150 (by decide) (by decide)
    (by decide)

theorem build_instinct_plan_suggestions_eq (now : String) (e : Evaluation)
    (hch : e.hasChild = true) (hne : e.events ≠ []) :
    (build_instinct_plan now e).suggestions =
      e.events.flatMap perEventSuggestions := by
  simp [build_instinct_plan, hch, hne, suggestionStep_fold]

/-- C6: with at least one event, the suggestions list is the
concatenation, event by event in order, of one record per actor whose
action table contains the event's metric, each record carrying that
actor's fixed action string and the event's level; a metric under both
actors yields two records, a metric under neither yields none. -/
theorem build_instinct_plan_suggestions_spec (now : String) (e : Evaluation)
    (hch : e.hasChild = true) (hne : e.events ≠ []) :
    (build_instinct_plan now e).suggestions =
      e.events.flatMap perEventSuggestions ∧
    ∀ ev : Event,
      (∀ a, getOpt parentA_actions ev.metric = some a →
        (perEventSuggestions ev).count ⟨"parentA", ev.metric, ev.level, a⟩ = 1) ∧
      (getOpt parentA_actions ev.metric = none →
        (perEventSuggestions ev).countP (fun s => s.parent == "parentA") = 0) ∧
      (∀ a, getOpt parentB_actions ev.metric = some a →
        (perEventSuggestions ev).count ⟨"parentB", ev.metric, ev.level, a⟩ = 1) ∧
      (getOpt parentB_actions ev.metric = none →
        (perEventSuggestions ev).countP (fun s => s.parent == "parentB") = 0) ∧
      (perEventSuggestions ev).length =
        (if (getOpt parentA_actions ev.metric).isSome then 1 else 0) +
        (if (getOpt parentB_actions ev.metric).isSome then 1 else 0) := by
  refine ⟨build_instinct_plan_suggestions_eq now e hch hne, fun ev => ?_⟩
  rcases hA : getOpt parentA_actions ev.metric with _ | a₀ <;>
    rcases hB : getOpt parentB_actions ev.metric with _ | b₀ <;>
      refine ⟨fun a ha => ?_, fun hna => ?_, fun a ha => ?_, fun hnb => ?_, ?_⟩ <;>
        simp_all [perEventSuggestions, List.count_cons, List.count_nil,
          Suggestion.mk.injEq]

/-- C6 witness: the suggestions theorem applied to a concrete
evaluation flagging `protection` (a metric under both actors), yielding
one parentA and one parentB record. -/
theorem build_instinct_plan_suggestions_spec_witness :
    (build_instinct_plan "t"
        ⟨true, "ok", none, some none, some none, some [("protection", 75)],
          [⟨"protection", 75, "active"⟩]⟩).suggestions =
      [⟨"protection", 75, "active"⟩].flatMap perEventSuggestions ∧
    (perEventSuggestions ⟨"protection", 75, "active"⟩).length = 2 := by
  have h := build_instinct_plan_suggestions_spec "t"
    ⟨true, "ok", none, some none, some none, some [("protection", 75)],
      [⟨"protection", 75, "active"⟩]⟩ rfl (List.cons_ne_nil _ _)
  refine ⟨h.1, ?_⟩
  have h2 := (h.2 ⟨"protection", 75, "active"⟩).2.2.2.2
  simpa using h2

theorem countP_key_and {α : Type} {l : List (String × α)} {m : String}
    {v : α} (hnd : (l.map Prod.fst).Nodup) (hmem : (m, v) ∈ l)
    (f : String × α → Bool) :
    l.countP (fun p => (p.1 == m) && f p) = if f (m, v) then 1 else 0 := by
  induction l with
  | nil => cases hmem
  | cons p rest ih =>
      simp only [List.map_cons, List.nodup_cons] at hnd
      rcases List.mem_cons.mp hmem with h | h
      · subst h
        have hz : rest.countP (fun p => (p.1 == m) && f p) = 0 := by
          rw [List.countP_eq_zero]
          intro q hq hb
          simp only [Bool.and_eq_true] at hb
          have hb1 : (q.1 == m) = true := hb.1
          have hq1 : q.1 ∈ rest.map Prod.fst := List.mem_map_of_mem Prod.fst hq
          rw [beq_iff_eq.mp hb1] at hq1
          exact hnd.1 hq1
        rw [List.countP_cons, hz]
        by_cases hf : f (m, v) <;> simp [hf]
      · have hne : p.1 ≠ m := by
          intro he
          exact hnd.1 (he ▸ List.mem_map_of_mem Prod.fst h)
        rw [List.countP_cons, ih hnd.2 h]
        simp [hne]

theorem countP_metric_events (l : List (String × Int)) (m : String) :
    ((l.map (fun p => (p.1, clamp_score p.2))).filterMap mkEvent).countP
        (fun ev => ev.metric == m) =
      l.countP (fun p => (p.1 == m) && decide (40 ≤ clamp_score p.2)) := by
  induction l with
  | nil => rfl
  | cons p rest ih =>
      rw [List.map_cons]
      by_cases h : 40 ≤ clamp_score p.2
      · have hsome : mkEvent (p.1, clamp_score p.2) =
            some ⟨p.1, clamp_score p.2, band_for_score (clamp_score p.2)⟩ := by
          rw [mkEvent_clamp p.1 p.2, if_pos h]
        rw [List.filterMap_cons_some hsome, List.countP_cons, List.countP_cons,
          ih]
        simp [h]
      · have hnone : mkEvent (p.1, clamp_score p.2) = none := by
          rw [mkEvent_clamp p.1 p.2, if_neg h]
        rw [List.filterMap_cons_none hnone, List.countP_cons, ih]
        simp [h]

theorem countP_events_of_mem {l : List (String × Int)} {m : String} {v : Int}
    (hnd : (l.map Prod.fst).Nodup) (hmem : (m, v) ∈ l) :
    ((l.map (fun p => (p.1, clamp_score p.2))).filterMap mkEvent).countP
        (fun ev => ev.metric == m) =
      if 40 ≤ clamp_score v then 1 else 0 := by
  rw [countP_metric_events, countP_key_and hnd hmem]
  by_cases h : 40 ≤ clamp_score v <;> simp [h]

/-- C3: for a state with a child, the events list has exactly one event
`{metric, score, level}` per metric whose clamped score is at least 40,
no event for a metric whose clamped score is at most 39, every event
drawn from the clamped score map with its band as level, and the list
is sorted in descending score order. -/
theorem evaluate_child_events_spec (st : State) (c : Child)
    (hc : st.child = some c)
    (hnd : (((c.scores.getD [] : ScoreMap)).map Prod.fst).Nodup) :
    (∀ e ∈ (evaluate_child st).events, ∃ v,
        (e.metric, v) ∈ (c.scores.getD [] : ScoreMap) ∧
        e.score = clamp_score v ∧ e.level = band_for_score e.score ∧
        40 ≤ e.score) ∧
    (∀ m v, (m, v) ∈ (c.scores.getD [] : ScoreMap) → 40 ≤ clamp_score v →
        (⟨m, clamp_score v, band_for_score (clamp_score v)⟩ : Event) ∈
            (evaluate_child st).events ∧
        (evaluate_child st).events.countP (fun ev => ev.metric == m) = 1) ∧
    (∀ m v, (m, v) ∈ (c.scores.getD [] : ScoreMap) → clamp_score v ≤ 39 →
        (evaluate_child st).events.countP (fun ev => ev.metric == m) = 0) ∧
    List.Sorted scoreGE (evaluate_child st).events := by
  have hev := evaluate_child_events_eq st c hc
  refine ⟨?_, ?_, ?_, ?_⟩
  · intro e he
    rw [hev, List.mem_insertionSort] at he
    obtain ⟨q, hql, hq⟩ := List.mem_filterMap.mp he
    obtain ⟨p, hpl, rfl⟩ := List.mem_map.mp hql
    rw [mkEvent_clamp p.1 p.2] at hq
    by_cases h40 : 40 ≤ clamp_score p.2
    · rw [if_pos h40] at hq
      obtain rfl := Option.some.inj hq
      exact ⟨p.2, by simpa using hpl, rfl, rfl, h40⟩
    · rw [if_neg h40] at hq
      cases hq
  · intro m v hmem h40
    constructor
    · rw [hev, List.mem_insertionSort]
      apply List.mem_filterMap.mpr
      refine ⟨(m, clamp_score v), List.mem_map.mpr ⟨(m, v), hmem, rfl⟩, ?_⟩
      rw [mkEvent_clamp m v, if_pos h40]
    · rw [hev, (List.perm_insertionSort scoreGE _).countP_eq,
        countP_events_of_mem hnd hmem, if_pos h40]
  · intro m v hmem h39
    rw [hev, (List.perm_insertionSort scoreGE _).countP_eq,
      countP_events_of_mem hnd hmem, if_neg (by omega)]
  · rw [hev]
    exact List.sorted_insertionSort scoreGE _

/-- C3 witness: the events theorem applied to a concrete two-metric
child, flagging `fear` (clamped 90) and skipping `hunger` (5). -/
theorem evaluate_child_events_spec_witness :
    (⟨"fear", clamp_score 90, band_for_score (clamp_score 90)⟩ : Event) ∈
      (evaluate_child
        ⟨some ⟨some "c1", some "egg", some [("fear", 90), ("hunger", 5)]⟩⟩).events ∧
    (evaluate_child
        ⟨some ⟨some "c1", some "egg", some [("fear", 90), ("hunger", 5)]⟩⟩).events.countP
      (fun ev => ev.metric == "hunger") = 0 :=
  ⟨((evaluate_child_events_spec _ ⟨some "c1", some "egg",
        some [("fear", 90), ("hunger", 5)]⟩ rfl (by decide)).2.1 "fear" 90
      (by decide) (by decide)).1,
   (evaluate_child_events_spec _ ⟨some "c1", some "egg",
        some [("fear", 90), ("hunger", 5)]⟩ rfl (by decide)).2.2.1 "hunger" 5
      (by decide) (by decide)⟩

end Parentality
